import Mathlib

/-!
Verification of the compositional Petri-net discovery engine and its
frontend, following the project specification. The algorithm core
(net algebra, refinement search, orchestrator) is modelled from the
specification because only its documentation ships in the repository;
the frontend components are embedded from the JSX sources.
-/

/-! ### Net representation (spec 3, 4.1) -/

/-- A node of a bipartite net: a stable identifier plus an optional
interaction label. Modelled from the spec: Place / Transition nodes. -/
structure Node where
  id : String
  label : Option String
deriving DecidableEq, Repr

/-- Modelled from the spec: a net is (places, transitions, arcs,
initial marking, final marking); markings are sets of places. -/
structure Net where
  places : List Node
  transitions : List Node
  arcs : List (String × String)
  initial : List String
  final : List String
deriving DecidableEq, Repr

/-- All declared node identifiers of a net. -/
def Net.ids (n : Net) : List String :=
  n.places.map Node.id ++ n.transitions.map Node.id

/-- Modelled from the spec: the bipartite flow-relation invariant checked
by construct — every arc endpoint references a declared node and no arc
connects two nodes of the same kind. -/
def Net.validB (n : Net) : Bool :=
  n.arcs.all (fun e =>
    (decide (e.1 ∈ n.places.map Node.id) && decide (e.2 ∈ n.transitions.map Node.id)) ||
    (decide (e.1 ∈ n.transitions.map Node.id) && decide (e.2 ∈ n.places.map Node.id)))

/-- Modelled from the spec: construct validates the bipartite invariant and
arc endpoint references, failing with InvalidNetError otherwise. -/
def construct (places transitions : List Node) (arcs : List (String × String))
    (initial finalM : List String) : Except String Net :=
  let n : Net := ⟨places, transitions, arcs, initial, finalM⟩
  if n.validB then .ok n else .error "InvalidNetError"

/-! ### Label-preserving isomorphism (spec 4.1) -/

/-- All ways to insert an element into a list. -/
def inserts (a : α) : List α → List (List α)
  | [] => [[a]]
  | b :: bs => (a :: b :: bs) :: (inserts a bs).map (fun l => b :: l)

/-- All permutations of a list (witness enumeration for the existential
isomorphism predicate). -/
def perms : List α → List (List α)
  | [] => [[]]
  | a :: as => (perms as).flatMap (inserts a)

/-- The id renaming induced by a pairing of nodes: the first matching
pair maps its left id to its right id; unmatched ids stay fixed. -/
def renFun : List (Node × Node) → String → String
  | [], x => x
  | q :: qs, x => if q.1.id = x then q.2.id else renFun qs x

/-- Check one candidate node pairing between nets a and b: labels must be
preserved pairwise, and the induced renaming must carry the flow relation
of a into b and (by the swapped pairing) that of b into a. -/
def isoPairsCheck (a b : Net) (pp tq : List (Node × Node)) : Bool :=
  let pairs := pp ++ tq
  pp.all (fun q => decide (q.1.label = q.2.label)) &&
  tq.all (fun q => decide (q.1.label = q.2.label)) &&
  a.arcs.all (fun e => decide ((renFun pairs e.1, renFun pairs e.2) ∈ b.arcs)) &&
  b.arcs.all (fun e =>
    decide ((renFun (pairs.map Prod.swap) e.1, renFun (pairs.map Prod.swap) e.2) ∈ a.arcs))

/-- Modelled from the spec: true iff a label-preserving bijection exists
between the places and between the transitions of the two nets that
preserves the flow relation; any one witness bijection suffices. -/
def is_isomorphic (a b : Net) : Bool :=
  decide (a.places.length = b.places.length) &&
  decide (a.transitions.length = b.transitions.length) &&
  (perms a.places).any (fun ap =>
    (perms b.places).any (fun bp =>
      (perms a.transitions).any (fun tp =>
        (perms b.transitions).any (fun tq =>
          isoPairsCheck a b (ap.zip bp) (tp.zip tq)))))

/-! ### Canonical hash and merge (spec 4.1) -/

/-- Modelled from the spec: a cheap structural fingerprint invariant under
any id-relabeling bijection, used to deduplicate search states. -/
def canonical_hash (n : Net) : Nat × Nat × Nat :=
  (n.places.length, n.transitions.length, n.arcs.length)

/-- Namespace the ids of a net by the index of its source net, so that the
disjoint union in merge cannot collide. -/
def prefixNet (i : Nat) (n : Net) : Net :=
  let pre := toString i ++ "_"
  { places := n.places.map (fun p => ⟨pre ++ p.id, p.label⟩)
    transitions := n.transitions.map (fun t => ⟨pre ++ t.id, t.label⟩)
    arcs := n.arcs.map (fun e => (pre ++ e.1, pre ++ e.2))
    initial := n.initial.map (fun x => pre ++ x)
    final := n.final.map (fun x => pre ++ x) }

/-- The namespaced places of all source nets, each tagged with the index
of the net it came from. -/
def taggedPlaces (nets : List Net) : List (Nat × Node) :=
  nets.enum.flatMap (fun en => (prefixNet en.1 en.2).places.map (fun p => (en.1, p)))

/-- Interaction labels shared across distinct source nets: only these are
identified by merge (a label occurring in a single source net is kept as
is, so merging one net is the identity up to renaming). -/
def sharedLabels (tagged : List (Nat × Node)) : List String :=
  (tagged.filterMap (fun tp => tp.2.label)).dedup.filter (fun lb =>
    decide (2 ≤ ((tagged.filter (fun tp => decide (tp.2.label = some lb))).map Prod.fst).dedup.length))

/-- The representative place id for an interaction label: the first tagged
place carrying it. -/
def repForLabel (tagged : List (Nat × Node)) (lb : String) : String :=
  match tagged.find? (fun tp => decide (tp.2.label = some lb)) with
  | some tp => tp.2.id
  | none => ""

/-- Rename a (namespaced) id to the representative of its shared
interaction label, if it names a place whose label is shared. -/
def renameShared (tagged : List (Nat × Node)) (x : String) : String :=
  match tagged.find? (fun tp => decide (tp.2.id = x)) with
  | some tp =>
    match tp.2.label with
    | some lb => if decide (lb ∈ sharedLabels tagged) then repForLabel tagged lb else x
    | none => x
  | none => x

/-- Whether a tagged place is dropped by the identification: it carries a
shared label but is not the representative of that label. -/
def droppedByMerge (tagged : List (Nat × Node)) (tp : Nat × Node) : Bool :=
  match tp.2.label with
  | some lb => decide (lb ∈ sharedLabels tagged) && decide (repForLabel tagged lb ≠ tp.2.id)
  | none => false

/-- Modelled from the spec: merge builds the disjoint union of the nets
(ids namespaced per source net) and then identifies places across nets
that share the same declared interaction label into one shared place. -/
def merge (nets : List Net) : Net :=
  let tagged := taggedPlaces nets
  let ren := renameShared tagged
  { places := (tagged.filter (fun tp => ! droppedByMerge tagged tp)).map Prod.snd
    transitions := nets.enum.flatMap (fun en => (prefixNet en.1 en.2).transitions)
    arcs := (nets.enum.flatMap (fun en => (prefixNet en.1 en.2).arcs)).map
      (fun e => (ren e.1, ren e.2))
    initial := (nets.enum.flatMap (fun en => (prefixNet en.1 en.2).initial)).map ren
    final := (nets.enum.flatMap (fun en => (prefixNet en.1 en.2).final)).map ren }

/-- Modelled from the spec: add_markings sets the initial marking to the
places with no incoming arcs and the final marking to the places with no
outgoing arcs. -/
def add_markings (n : Net) : Net :=
  { n with
    initial := (n.places.filter (fun p => ! n.arcs.any (fun e => decide (e.2 = p.id)))).map Node.id
    final := (n.places.filter (fun p => ! n.arcs.any (fun e => decide (e.1 = p.id)))).map Node.id }

/-! ### Transformation rules (spec 4.3) -/

/-- Modelled from the spec: the closed catalog of local label-preserving
structural rewrites — place and transition splits. -/
inductive TRule where
  | placeExpand
  | transitionExpand
deriving DecidableEq, Repr

/-- Expand place x into the chain x_1 -> x_t -> x_2, preserving the
interaction label on the first part, rewiring incoming arcs to x_1 and
outgoing arcs from x_2, and retargeting the markings. -/
def placeExpand (x : String) (n : Net) : Option Net :=
  if decide (x ∈ n.places.map Node.id) then
    some
      { places := n.places.flatMap (fun p =>
          if decide (p.id = x) then [⟨x ++ "_1", p.label⟩, ⟨x ++ "_2", none⟩] else [p])
        transitions := n.transitions ++ [⟨x ++ "_t", none⟩]
        arcs := (n.arcs.map (fun e =>
            (if decide (e.1 = x) then x ++ "_2" else e.1,
             if decide (e.2 = x) then x ++ "_1" else e.2))) ++
          [(x ++ "_1", x ++ "_t"), (x ++ "_t", x ++ "_2")]
        initial := n.initial.map (fun y => if decide (y = x) then x ++ "_1" else y)
        final := n.final.map (fun y => if decide (y = x) then x ++ "_2" else y) }
  else none

/-- Expand transition x into the chain x_1 -> x_p -> x_2 of two
transitions around a fresh place, the analogous split for transitions. -/
def transitionExpand (x : String) (n : Net) : Option Net :=
  if decide (x ∈ n.transitions.map Node.id) then
    some
      { places := n.places ++ [⟨x ++ "_p", none⟩]
        transitions := n.transitions.flatMap (fun t =>
          if decide (t.id = x) then [⟨x ++ "_1", t.label⟩, ⟨x ++ "_2", none⟩] else [t])
        arcs := (n.arcs.map (fun e =>
            (if decide (e.1 = x) then x ++ "_2" else e.1,
             if decide (e.2 = x) then x ++ "_1" else e.2))) ++
          [(x ++ "_1", x ++ "_p"), (x ++ "_p", x ++ "_2")]
        initial := n.initial
        final := n.final }
  else none

/-- Apply one catalog rule at one anchor; none models the recovered
InapplicableTransformationError. -/
def applyTRule : TRule → String → Net → Option Net
  | .placeExpand, x, n => placeExpand x n
  | .transitionExpand, x, n => transitionExpand x n

/-! ### Refinement search engine (spec 4.4) -/

/-- A search state: a net together with the (rule, anchor) path that
produced it from the start net. -/
structure SearchState (R : Type) where
  net : Net
  path : List (R × String)

/-- Modelled from the spec: the outcome of the bounded refinement search;
budget exhaustion is distinct from refutation. -/
inductive RefinementOutcome (R : Type) where
  | found (path : List (R × String))
  | refinementNotFoundError
  | searchBudgetExceededError
deriving DecidableEq

/-- The anchors of a net: every place id and every transition id. -/
def anchors (n : Net) : List String :=
  n.places.map Node.id ++ n.transitions.map Node.id

/-- One-step neighborhood of a state: every rule at every anchor,
silently discarding inapplicable pairs. -/
def expandOne {R : Type} (applyR : R → String → Net → Option Net) (rules : List R)
    (s : SearchState R) : List (SearchState R) :=
  rules.flatMap (fun r =>
    (anchors s.net).filterMap (fun x =>
      (applyR r x s.net).map (fun n2 => ⟨n2, s.path ++ [(r, x)]⟩)))

/-- Full one-step neighborhood of a frontier. -/
def expandFrontier {R : Type} (applyR : R → String → Net → Option Net) (rules : List R)
    (frontier : List (SearchState R)) : List (SearchState R) :=
  frontier.flatMap (expandOne applyR rules)

/-- Drop newly generated states whose canonical hash was already visited,
threading the visited set. -/
def dedupNew {R : Type} (visited : List (Nat × Nat × Nat)) (states : List (SearchState R)) :
    List (SearchState R) × List (Nat × Nat × Nat) :=
  states.foldl
    (fun acc s =>
      if decide (canonical_hash s.net ∈ acc.2) then acc
      else (acc.1 ++ [s], acc.2 ++ [canonical_hash s.net]))
    ([], visited)

/-- Bounded breadth-first search: test the current frontier against the
target, report exhaustion as refutation, report an exhausted budget with a
nonempty frontier as the distinct undecided outcome, else expand. -/
def bfsLoop {R : Type} (applyR : R → String → Net → Option Net) (rules : List R)
    (target : Net) : Nat → List (SearchState R) → List (Nat × Nat × Nat) → RefinementOutcome R
  | 0, frontier, _ =>
    match frontier.find? (fun s => is_isomorphic s.net target) with
    | some s => .found s.path
    | none =>
      if frontier.isEmpty then .refinementNotFoundError else .searchBudgetExceededError
  | fuel' + 1, frontier, visited =>
    match frontier.find? (fun s => is_isomorphic s.net target) with
    | some s => .found s.path
    | none =>
      if frontier.isEmpty then .refinementNotFoundError
      else
        let fv := dedupNew visited (expandFrontier applyR rules frontier)
        bfsLoop applyR rules target fuel' fv.1 fv.2

/-- Modelled from the spec: the bounded refinement search from a start net
toward a target net under a rule set, with a caller-supplied depth budget. -/
def is_refinement {R : Type} (applyR : R → String → Net → Option Net)
    (start target : Net) (rules : List R) (budget : Nat) : RefinementOutcome R :=
  bfsLoop applyR rules target budget [⟨start, []⟩] [canonical_hash start]

/-- The frontier and visited set the search holds after d expansion
levels, as a pure level function of the depth. -/
def frontierAt {R : Type} (applyR : R → String → Net → Option Net) (rules : List R)
    (start : Net) : Nat → List (SearchState R) × List (Nat × Nat × Nat)
  | 0 => ([⟨start, []⟩], [canonical_hash start])
  | d + 1 =>
    let fv := frontierAt applyR rules start d
    dedupNew fv.2 (expandFrontier applyR rules fv.1)

/-- Whether some state of a frontier is isomorphic to the target. -/
def foundInFrontier {R : Type} (target : Net) (frontier : List (SearchState R)) : Bool :=
  frontier.any (fun s => is_isomorphic s.net target)

/-! ### Compositional orchestrator (spec 4.5) -/

/-- An event-log record: a finite attribute map. -/
abbrev Record := List (String × String)

/-- Modelled from the spec: the fatal error kinds of the orchestrator. -/
inductive DiscoveryError where
  | missingParticipantAttributeError
  | refinementNotFoundError (participant : String)
  | searchBudgetExceededError (participant : String)
deriving DecidableEq, Repr

/-- Look an attribute up in a record; none models its absence. -/
def getAttr (r : Record) (a : String) : Option String :=
  (r.find? (fun kv => decide (kv.1 = a))).map Prod.snd

/-- The participant identifiers of a log, in first-occurrence order. -/
def participantsOf (log : List Record) (attr : String) : List String :=
  (log.filterMap (fun r => getAttr r attr)).dedup

/-- Modelled from the spec: partition the log by the participant attribute
into per-participant sub-logs, failing with
MissingParticipantAttributeError if any record lacks the attribute. -/
def partitionLog (log : List Record) (attr : String) :
    Except DiscoveryError (List (String × List Record)) :=
  if log.all (fun r => (getAttr r attr).isSome) then
    .ok ((participantsOf log attr).map (fun p =>
      (p, log.filter (fun r => decide (getAttr r attr = some p)))))
  else .error .missingParticipantAttributeError

/-- Mine and check each participant in turn: call the external miner on
the sub-log, then run the refinement search of the template view toward
the mined net, aborting the composition on refutation or budget
exhaustion. Returns the validated nets together with the trace of
sub-logs the miner was invoked on. -/
def runParticipants {R : Type} (applyR : R → String → Net → Option Net)
    (miner : List Record → Net) (tmplGet : String → Net) (rules : List R) (budget : Nat) :
    List (String × List Record) → Except DiscoveryError (List Net) × List (List Record)
  | [] => (.ok [], [])
  | (p, sub) :: rest =>
    let lp := miner sub
    match is_refinement applyR (tmplGet p) lp rules budget with
    | .found _ =>
      let next := runParticipants applyR miner tmplGet rules budget rest
      ((next.1.map (fun ls => lp :: ls)), sub :: next.2)
    | .refinementNotFoundError => (.error (.refinementNotFoundError p), [sub])
    | .searchBudgetExceededError => (.error (.searchBudgetExceededError p), [sub])

/-- Modelled from the spec: the compositional discovery pipeline —
partition the log, mine each participant, check each mined net against
its template view, then merge the validated nets and recompute markings.
The second component is the trace of miner invocations issued. -/
def compositional_discovery {R : Type} (applyR : R → String → Net → Option Net)
    (log : List Record) (miner : List Record → Net) (tmplGet : String → Net)
    (rules : List R) (attr : String) (budget : Nat) :
    Except DiscoveryError Net × List (List Record) :=
  match partitionLog log attr with
  | .error err => (.error err, [])
  | .ok parts =>
    let res := runParticipants applyR miner tmplGet rules budget parts
    (res.1.map (fun ls => add_markings (merge ls)), res.2)

/-! ### XML document model for the frontend converter -/

mutual
/-- A parsed XML node: a text node or an element with a tag, attributes
and children; the shape xmldom delivers to the converter. -/
inductive Xml where
  | text (s : String)
  | elem (tag : String) (attrs : List (String × String)) (children : XmlL)
/-- A list of XML nodes, kept as a separate inductive so that the
recursive tree walks are structural. -/
inductive XmlL where
  | nil
  | cons (x : Xml) (xs : XmlL)
end

/-- Build an XmlL from a plain list of nodes. -/
def toXmlL : List Xml → XmlL
  | [] => .nil
  | x :: xs => .cons x (toXmlL xs)

mutual
/-- getElementsByTagName: all descendant elements with the given tag, in
document order, excluding the node itself. -/
def Xml.byTag (tag : String) : Xml → List Xml
  | .text _ => []
  | .elem _ _ ch => XmlL.byTagL tag ch
/-- Descendant search over a node list, each listed node included when
its tag matches. -/
def XmlL.byTagL (tag : String) : XmlL → List Xml
  | .nil => []
  | .cons x xs =>
    (match x with
     | .text _ => []
     | .elem t a ch => (if decide (t = tag) then [Xml.elem t a ch] else []) ++ XmlL.byTagL tag ch) ++
    XmlL.byTagL tag xs
end

mutual
/-- textContent: the concatenation of all text in the subtree. -/
def Xml.textContent : Xml → String
  | .text s => s
  | .elem _ _ ch => XmlL.textContentL ch
/-- textContent over a node list. -/
def XmlL.textContentL : XmlL → String
  | .nil => ""
  | .cons x xs => Xml.textContent x ++ XmlL.textContentL xs
end

/-- getAttribute: the attribute value, or none for the null the DOM
returns when the attribute is absent. -/
def getAttribute (x : Xml) (name : String) : Option String :=
  match x with
  | .text _ => none
  | .elem _ attrs _ => (attrs.find? (fun kv => decide (kv.1 = name))).map Prod.snd

/-! ### JavaScript value conventions used by the converter -/

/-- How a possibly-null string interpolates into a template literal. -/
def jsShow : Option String → String
  | some s => s
  | none => "null"

/-- JavaScript truthiness of a possibly-null string: null, undefined and
the empty string are falsy. -/
def jsTruthy : Option String → Bool
  | some s => decide (s ≠ "")
  | none => false

/-- The JavaScript or-else on possibly-null strings. -/
def jsOr (a b : Option String) : Option String :=
  if jsTruthy a then a else b

/-- Wrap a string in double quotes as the DOT lines do. -/
def quoteS (s : String) : String := "\"" ++ s ++ "\""

/-- Substring containment, the semantics of String.prototype.includes. -/
def containsSub (s pat : String) : Bool :=
  decide (pat.data <:+: s.data)

/-- Replace every colon by a double underscore, the final global replace
of the converter. -/
def replaceColons (s : String) : String :=
  ⟨s.data.flatMap (fun c => if decide (c = ':') then ['_', '_'] else [c])⟩

/-- Sequence a fallible computation over a list, stopping at the first
raised error — the semantics of a forEach whose body can throw. -/
def mapExcept (f : α → Except ε β) : List α → Except ε (List β)
  | [] => .ok []
  | a :: as =>
    match f a with
    | .error e => .error e
    | .ok b =>
      match mapExcept f as with
      | .error e => .error e
      | .ok bs => .ok (b :: bs)

/-! ### The PNML-to-DOT converter (DotStringConverter.jsx) -/

/-- The text content of the first text element under the first child
element of the given tag, as the optional chains in the converter read
names and markings. -/
def firstTagText (x : Xml) (tag : String) : Option String :=
  ((x.byTag tag).head?).bind (fun nm => ((nm.byTag "text").head?).map Xml.textContent)

/-- The idref set of the finalmarkings section. Raises when the net has no
finalmarkings element or a marking has no place child, exactly where the
converter dereferences undefined. -/
def finalMarkingIdrefs (netEl : Xml) : Except String (List (Option String)) :=
  match (netEl.byTag "finalmarkings").head? with
  | none => .error "TypeError: finalmarkings is undefined"
  | some fm =>
    mapExcept
      (fun mk =>
        match (mk.byTag "place").head? with
        | none => .error "TypeError: marking has no place"
        | some pl => .ok (getAttribute pl "idref"))
      (fm.byTag "marking")

/-- The fill color and border width of a place: the teal, thick style for
places in the initial or final marking, the plain style otherwise. -/
def placeColorPen (fms : List (Option String)) (pl : Xml) : String × Nat :=
  if jsTruthy (firstTagText pl "initialMarking") then ("#007070", 3)
  else if decide (getAttribute pl "id" ∈ fms) then ("#007070", 3)
  else ("#ffffff", 1)

/-- The DOT node line emitted for a place with a truthy id: a
circle-shaped, filled node labelled with the place name. -/
def placeLineCore (fms : List (Option String)) (pl : Xml) : String :=
  "  " ++ quoteS (jsShow (getAttribute pl "id")) ++ " [label=" ++
    quoteS (jsShow (jsOr (firstTagText pl "name") (getAttribute pl "id"))) ++ ", " ++
    "shape=circle" ++ ", style=" ++ quoteS "filled" ++ ", fillcolor=" ++
    quoteS (placeColorPen fms pl).1 ++ ", penwidth=" ++
    quoteS (toString (placeColorPen fms pl).2) ++ "];\n"

/-- The DOT line for one place, given the final-marking idref set; none
when the place id is falsy and the converter emits nothing. -/
def placeLineStr (fms : List (Option String)) (pl : Xml) : Option String :=
  if jsTruthy (getAttribute pl "id") then some (placeLineCore fms pl) else none

/-- Process one place: read the finalmarkings section (which can raise)
and build the place's DOT line. -/
def placeEntry (netEl pl : Xml) : Except String (Option String) :=
  match finalMarkingIdrefs netEl with
  | .error e => .error e
  | .ok fms => .ok (placeLineStr fms pl)

/-- The fill color of a transition: black for tau and skip transitions,
white otherwise. -/
def transitionFill (tr : Xml) : String :=
  if containsSub (jsShow (getAttribute tr "id")) "tau" ||
     containsSub (jsShow (getAttribute tr "id")) "skip"
  then "black" else "white"

/-- The DOT node line emitted for a transition with a truthy id: a
box-shaped, filled node labelled with the transition name. -/
def transitionLineCore (tr : Xml) : String :=
  "  " ++ quoteS (jsShow (getAttribute tr "id")) ++ " [label=" ++
    quoteS (jsShow (jsOr (jsOr (firstTagText tr "name") (getAttribute tr "id"))
      (getAttribute tr "id"))) ++ ", " ++
    "shape=box" ++ ", style=" ++ quoteS "filled" ++ ", fillcolor=" ++
    quoteS (transitionFill tr) ++ "];\n"

/-- The DOT line for one transition; tau and skip transitions are filled
black; none when the transition id is falsy. -/
def transitionLineStr (tr : Xml) : Option String :=
  if jsTruthy (getAttribute tr "id") then some (transitionLineCore tr) else none

/-- The DOT line for one arc: a directed edge from the source attribute
to the target attribute, emitted unconditionally. -/
def arcLineStr (arc : Xml) : String :=
  "  " ++ quoteS (jsShow (getAttribute arc "source")) ++ " -> " ++
    quoteS (jsShow (getAttribute arc "target")) ++ ";\n"

/-- The fixed DOT header the converter starts from. -/
def headerDot : String :=
  "digraph PetriNet \x7b\n" ++ "  rankdir=LR;\n" ++ "  node [shape=circle];\n" ++
    "  node [shape=box];\n"

/-- The closing line of the DOT text. -/
def footerDot : String := "\x7d\n"

/-- The body of convertPnmlToDot: everything inside the try block —
locate the net element, emit places (which can raise on the final
markings), transitions and arcs, and apply the global colon replace. -/
def convertPnmlToDotBody (xmlDoc : Xml) : Except String String :=
  match (xmlDoc.byTag "net").head? with
  | none => .error "TypeError: netElement is undefined"
  | some netEl =>
    match mapExcept (placeEntry netEl) (netEl.byTag "place") with
    | .error e => .error e
    | .ok entries =>
      .ok (replaceColons (headerDot ++ String.join (entries.filterMap id) ++
        String.join ((netEl.byTag "transition").filterMap transitionLineStr) ++
        String.join ((netEl.byTag "arc").map arcLineStr) ++ footerDot))

/-- convertPnmlToDot over the parser outcome: any error raised during
parsing or conversion is caught and the empty string returned. -/
def convertPnmlToDot (input : Except String Xml) : String :=
  match input with
  | .error _ => ""
  | .ok doc =>
    match convertPnmlToDotBody doc with
    | .ok s => s
    | .error _ => ""

/-! ### Frontend input, conformance and reset components -/

/-- The interface-pattern options the selector enumerates
(InputComponent.jsx line 137). -/
def interfacePatternOptions : List String :=
  (List.range 12).map (fun i => "IP" ++ toString (i + 1))

/-- The initial conformance record of the home page (HomePage.jsx line
23): the four scalar metrics, each mapped to zero. -/
def conformanceInit : List (String × Rat) :=
  [("Alignment-based Fitness", 0), ("Alignment-based Precision", 0),
   ("Entropy-based Fitness", 0), ("Entropy-based Precision", 0)]

/-- One rendered row of the conformance table: a metric cell and a value
cell. -/
structure TableRow (V : Type) where
  key : String
  value : V
deriving DecidableEq, Repr

/-- ConformanceComponent renders one table row per entry of the record it
is given, copying key and value into the two cells unchanged. -/
def conformanceRows {V : Type} (conf : List (String × V)) : List (TableRow V) :=
  conf.map (fun kv => ⟨kv.1, kv.2⟩)

/-- A statement of the resetEverything body: a bare identifier expression
or a unary call of a named setter. -/
inductive JStmt where
  | exprIdent (name : String)
  | callSetter (name : String) (arg : String)
deriving DecidableEq, Repr

/-- The runtime outcome of a statement sequence: completion or a
ReferenceError naming the unresolvable identifier, each carrying the
setters that were actually invoked. -/
inductive JsOutcome where
  | ok (invoked : List String)
  | referenceError (name : String) (invoked : List String)
deriving DecidableEq, Repr

/-- Execute statements left to right: resolving an identifier outside the
scope raises a ReferenceError and stops; setter calls are recorded. -/
def runStmts (scope : List String) : List JStmt → List String → JsOutcome
  | [], invoked => .ok invoked
  | .exprIdent n :: rest, invoked =>
    if decide (n ∈ scope) then runStmts scope rest invoked else .referenceError n invoked
  | .callSetter n _ :: rest, invoked =>
    if decide (n ∈ scope) then runStmts scope rest (invoked ++ [n])
    else .referenceError n invoked

/-- The identifiers in scope inside the HomePage component body: imports,
state variables and setters, and the component's own functions. -/
def homePageScope : List String :=
  ["React", "useState", "InputComponent", "useAlert", "ConformanceComponent",
   "VizualizationComponent", "axios", "convertPnmlToDot", "LinearProgress",
   "setAlert", "loading", "setLoading", "file", "setFile", "existingFiles",
   "setExistingFiles", "pnml_content", "setPnmlContent", "svg", "setSvg",
   "dotString", "setDotString", "miner", "setMiner", "interfacePattern",
   "setInterfacePattern", "noiseThreshold", "setNoiseThreshold", "conformance",
   "setConformance", "applyAlgorithm", "savePNML", "resetEverything"]

/-- The statement sequence of resetEverything (HomePage.jsx lines
96 to 106): the stray identifier e, then the state resets, including the
call of the undefined setter setPnmlNet. -/
def resetEverythingBody : List JStmt :=
  [.exprIdent "e",
   .callSetter "setFile" "null",
   .callSetter "setPnmlNet" "",
   .callSetter "setPnmlContent" "",
   .callSetter "setSvg" "",
   .callSetter "setMiner" "inductive",
   .callSetter "setNoiseThreshold" "0",
   .callSetter "setConformance" "init",
   .callSetter "setLoading" "false",
   .callSetter "setAlert" "info"]

/-! ### Concrete scenario inputs -/

/-- The start net of the depth-budget scenario: a single marked place. -/
def startNetC1 : Net :=
  ⟨[⟨"p", none⟩], [], [], ["p"], ["p"]⟩

/-- The target net of the depth-budget scenario: a four-place chain,
reachable from the single place by exactly three place expansions and by
no shorter rule sequence. -/
def targetNetC1 : Net :=
  ⟨[⟨"q1", none⟩, ⟨"q2", none⟩, ⟨"q3", none⟩, ⟨"q4", none⟩],
   [⟨"u1", none⟩, ⟨"u2", none⟩, ⟨"u3", none⟩],
   [("q1", "u1"), ("u1", "q2"), ("q2", "u2"), ("u2", "q3"), ("q3", "u3"), ("u3", "q4")],
   ["q1"], ["q4"]⟩

/-- A small valid net used to instantiate the single-net merge claim. -/
def sampleNetA : Net :=
  ⟨[⟨"p", none⟩, ⟨"q", some "msg"⟩], [⟨"t", some "send"⟩],
   [("p", "t"), ("t", "q")], ["p"], ["q"]⟩

/-- A PNML document that parses and contains a net element with one place
but no finalmarkings section: processing its place dereferences the
missing section and the converter's catch yields the empty string. -/
def badNetEl : Xml :=
  .elem "net" [("id", "net0")] (toXmlL [.elem "place" [("id", "p1")] .nil])

/-- The document wrapping of the counterexample net. -/
def badPnmlDoc : Xml :=
  .elem "#document" [] (toXmlL [.elem "pnml" [] (toXmlL [badNetEl])])

/-- A PNML net element with a place, a transition, an arc and a
well-formed finalmarkings section. -/
def goodNetEl : Xml :=
  .elem "net" [("id", "net1")] (toXmlL
    [.elem "place" [("id", "p1")] .nil,
     .elem "transition" [("id", "t1")] .nil,
     .elem "arc" [("id", "a1"), ("source", "p1"), ("target", "t1")] .nil,
     .elem "finalmarkings" [] (toXmlL
       [.elem "marking" [] (toXmlL [.elem "place" [("idref", "p1")] .nil])])])

/-- The document wrapping of the well-formed net. -/
def goodPnmlDoc : Xml :=
  .elem "#document" [] (toXmlL [.elem "pnml" [] (toXmlL [goodNetEl])])

/-- The length of the witness path of a search outcome, when one was
found. -/
def outcomePathLength {R : Type} : RefinementOutcome R → Option Nat
  | .found p => some p.length
  | _ => none

/-! ### Helper lemmas on permutations, renamings and isomorphism -/

/-- Every list occurs among its own permutations. -/
theorem self_mem_perms (l : List α) : l ∈ perms l := by
  induction l with
  | nil => simp [perms]
  | cons a as ih =>
    simp only [perms, List.mem_flatMap]
    exact ⟨as, ih, by cases as <;> simp [inserts]⟩

/-- Pairs drawn from a list zipped with itself are diagonal. -/
theorem mem_zip_self {l : List α} {q : α × α} (h : q ∈ l.zip l) : q.1 = q.2 := by
  induction l with
  | nil => cases h
  | cons a as ih =>
    rw [List.zip_cons_cons] at h
    rcases List.mem_cons.mp h with h | h
    · rw [h]
    · exact ih h

/-- A diagonal pairing induces the identity renaming. -/
theorem renFun_id (pairs : List (Node × Node)) (h : ∀ q ∈ pairs, q.1 = q.2) (x : String) :
    renFun pairs x = x := by
  induction pairs with
  | nil => rfl
  | cons q qs ih =>
    simp only [renFun]
    split
    · next hx => rw [← h q (by simp)]; exact hx
    · exact ih (fun p hp => h p (by simp [hp]))

/-- The isomorphism test is reflexive: the identity pairing always
passes. -/
theorem is_isomorphic_refl (n : Net) : is_isomorphic n n = true := by
  unfold is_isomorphic
  simp only [Bool.and_eq_true, decide_eq_true_eq]
  refine ⟨⟨trivial, trivial⟩, ?_⟩
  rw [List.any_eq_true]
  refine ⟨n.places, self_mem_perms _, ?_⟩
  rw [List.any_eq_true]
  refine ⟨n.places, self_mem_perms _, ?_⟩
  rw [List.any_eq_true]
  refine ⟨n.transitions, self_mem_perms _, ?_⟩
  rw [List.any_eq_true]
  refine ⟨n.transitions, self_mem_perms _, ?_⟩
  unfold isoPairsCheck
  have hdiag : ∀ q ∈ n.places.zip n.places ++ n.transitions.zip n.transitions, q.1 = q.2 := by
    intro q hq
    rcases List.mem_append.mp hq with h | h
    · exact mem_zip_self h
    · exact mem_zip_self h
  have hdiag2 : ∀ q ∈ (n.places.zip n.places ++ n.transitions.zip n.transitions).map Prod.swap,
      q.1 = q.2 := by
    intro q hq
    rcases List.mem_map.mp hq with ⟨p, hp, hpq⟩
    rw [← hpq]
    exact (hdiag p hp).symm
  simp only [Bool.and_eq_true, List.all_eq_true, decide_eq_true_eq]
  refine ⟨⟨⟨?_, ?_⟩, ?_⟩, ?_⟩
  · intro q hq; rw [mem_zip_self hq]
  · intro q hq; rw [mem_zip_self hq]
  · intro e he; rw [renFun_id _ hdiag, renFun_id _ hdiag]; exact he
  · intro e he; rw [renFun_id _ hdiag2, renFun_id _ hdiag2]; exact he

/-- One direction of symmetry: a passing pairing for (a, b) yields, by
swapping it, a passing pairing for (b, a). -/
theorem is_isomorphic_symm_mp (a b : Net) (h : is_isomorphic a b = true) :
    is_isomorphic b a = true := by
  unfold is_isomorphic at h ⊢
  simp only [Bool.and_eq_true, decide_eq_true_eq] at h ⊢
  obtain ⟨⟨hlp, hlt⟩, hany⟩ := h
  refine ⟨⟨hlp.symm, hlt.symm⟩, ?_⟩
  rw [List.any_eq_true] at hany
  obtain ⟨ap, hap, hany⟩ := hany
  rw [List.any_eq_true] at hany
  obtain ⟨bp, hbp, hany⟩ := hany
  rw [List.any_eq_true] at hany
  obtain ⟨tp, htp, hany⟩ := hany
  rw [List.any_eq_true] at hany
  obtain ⟨tq, htq, hcheck⟩ := hany
  rw [List.any_eq_true]
  refine ⟨bp, hbp, ?_⟩
  rw [List.any_eq_true]
  refine ⟨ap, hap, ?_⟩
  rw [List.any_eq_true]
  refine ⟨tq, htq, ?_⟩
  rw [List.any_eq_true]
  refine ⟨tp, htp, ?_⟩
  unfold isoPairsCheck at hcheck ⊢
  simp only [Bool.and_eq_true, List.all_eq_true, decide_eq_true_eq] at hcheck ⊢
  obtain ⟨⟨⟨hpl, htl⟩, hfwd⟩, hbwd⟩ := hcheck
  have hswap : bp.zip ap ++ tq.zip tp =
      ((ap.zip bp) ++ (tp.zip tq)).map Prod.swap := by
    rw [List.map_append, List.zip_swap, List.zip_swap]
  have hswap2 : (((ap.zip bp) ++ (tp.zip tq)).map Prod.swap).map Prod.swap =
      (ap.zip bp) ++ (tp.zip tq) := by
    rw [List.map_map]
    simp [Prod.swap_swap]
  refine ⟨⟨⟨?_, ?_⟩, ?_⟩, ?_⟩
  · intro q hq
    rw [← List.zip_swap] at hq
    obtain ⟨p, hp, hpq⟩ := List.mem_map.mp hq
    rw [← hpq]
    exact (hpl p hp).symm
  · intro q hq
    rw [← List.zip_swap] at hq
    obtain ⟨p, hp, hpq⟩ := List.mem_map.mp hq
    rw [← hpq]
    exact (htl p hp).symm
  · intro e he
    rw [hswap]
    exact hbwd e he
  · intro e he
    rw [hswap, hswap2]
    exact hfwd e he

/-- C4: the isomorphism predicate is reflexive and symmetric — every net
is isomorphic to itself, and the test gives the same verdict on (a, b)
and on (b, a). -/
theorem is_isomorphic_refl_symm :
    (∀ n : Net, is_isomorphic n n = true) ∧
    (∀ a b : Net, is_isomorphic a b = is_isomorphic b a) := by
  constructor
  · exact is_isomorphic_refl
  · intro a b
    cases hab : is_isomorphic a b with
    | true => exact (is_isomorphic_symm_mp a b hab).symm
    | false =>
      cases hba : is_isomorphic b a with
      | true =>
        have h2 := is_isomorphic_symm_mp b a hba
        rw [hab] at h2
        exact (Bool.false_ne_true h2).elim
      | false => rfl

/-- C2: searching from any net toward itself, under any rule set and any
budget, succeeds immediately with the empty witness path. -/
theorem is_refinement_self_empty_path {R : Type} (applyR : R → String → Net → Option Net)
    (n : Net) (rules : List R) (budget : Nat) :
    is_refinement applyR n n rules budget = .found [] := by
  have hfind : List.find? (fun s => is_isomorphic s.net n) [(⟨n, []⟩ : SearchState R)] =
      some ⟨n, []⟩ := by
    rw [List.find?_cons_of_pos]
    exact is_isomorphic_refl n
  cases budget with
  | zero =>
    unfold is_refinement bfsLoop
    rw [hfind]
  | succ b =>
    unfold is_refinement bfsLoop
    rw [hfind]

/-- C6: the interface-pattern selector enumerates exactly twelve options,
one for each pattern index from 1 to 12 and no others, without
duplicates. -/
theorem interface_pattern_options_complete :
    interfacePatternOptions =
      ["IP1", "IP2", "IP3", "IP4", "IP5", "IP6",
       "IP7", "IP8", "IP9", "IP10", "IP11", "IP12"] ∧
    interfacePatternOptions.length = 12 ∧
    interfacePatternOptions.Nodup ∧
    (∀ i ∈ List.range 12, ("IP" ++ toString (i + 1)) ∈ interfacePatternOptions) ∧
    (∀ s ∈ interfacePatternOptions, ∃ i ∈ List.range 12, s = "IP" ++ toString (i + 1)) := by
  refine ⟨rfl, rfl, by decide, by decide, by decide⟩

/-- C7: the initial conformance record maps exactly the four scalar
metrics to zero, and the conformance table renders one row per entry of
whatever record it is given, copying keys and values through unchanged —
no conformance value is computed locally. -/
theorem conformance_record_rendering :
    conformanceInit =
      [("Alignment-based Fitness", (0 : Rat)), ("Alignment-based Precision", 0),
       ("Entropy-based Fitness", 0), ("Entropy-based Precision", 0)] ∧
    conformanceInit.length = 4 ∧
    (conformanceInit.map Prod.fst).Nodup ∧
    (∀ kv ∈ conformanceInit, kv.2 = 0) ∧
    (∀ (V : Type) (conf : List (String × V)),
      (conformanceRows conf).length = conf.length ∧
      (conformanceRows conf).map TableRow.key = conf.map Prod.fst ∧
      (conformanceRows conf).map TableRow.value = conf.map Prod.snd) := by
  refine ⟨rfl, rfl, by decide, by decide, ?_⟩
  intro V conf
  refine ⟨by simp [conformanceRows], ?_, ?_⟩
  · induction conf with
    | nil => rfl
    | cons kv rest ih => simp_all [conformanceRows]
  · induction conf with
    | nil => rfl
    | cons kv rest ih => simp_all [conformanceRows]

/-- C9: the converter never propagates an error — every call returns a
string, and whenever parsing or conversion raises, the catch yields the
empty string; otherwise the result is the successfully built DOT text. -/
theorem convertPnmlToDot_total_catch (input : Except String Xml) :
    convertPnmlToDot input = "" ∨
    ∃ doc s, input = .ok doc ∧ convertPnmlToDotBody doc = .ok s ∧
      convertPnmlToDot input = s := by
  cases input with
  | error e => exact Or.inl rfl
  | ok doc =>
    cases h : convertPnmlToDotBody doc with
    | error e => exact Or.inl (by simp [convertPnmlToDot, h])
    | ok s => exact Or.inr ⟨doc, s, rfl, h, by simp [convertPnmlToDot, h]⟩

/-- C10: running resetEverything raises a ReferenceError on the stray
identifier e before any state setter executes, so no state field is
reset; its body also calls the setter setPnmlNet, which is not defined in
the component scope. -/
theorem resetEverything_reference_error :
    runStmts homePageScope resetEverythingBody [] = .referenceError "e" [] ∧
    "e" ∉ homePageScope ∧
    "setPnmlNet" ∉ homePageScope ∧
    (JStmt.callSetter "setPnmlNet" "") ∈ resetEverythingBody := by
  refine ⟨rfl, by decide, by decide, by decide⟩

/-! ### The budget discipline of the search loop -/

/-- If the levels d through d + fuel all lack an isomorphic state and all
have a nonempty frontier, the loop started at level d with the given fuel
runs out of budget. -/
theorem bfsLoop_budget_aux {R : Type} (applyR : R → String → Net → Option Net)
    (rules : List R) (start target : Net) :
    ∀ (fuel d : Nat),
      (∀ k, d ≤ k → k ≤ d + fuel →
        foundInFrontier target (frontierAt applyR rules start k).1 = false ∧
        (frontierAt applyR rules start k).1.isEmpty = false) →
      bfsLoop applyR rules target fuel (frontierAt applyR rules start d).1
        (frontierAt applyR rules start d).2 = .searchBudgetExceededError := by
  intro fuel
  induction fuel with
  | zero =>
    intro d h
    obtain ⟨hf, hne⟩ := h d le_rfl (by omega)
    unfold foundInFrontier at hf
    have hfind : List.find? (fun s => is_isomorphic s.net target)
        (frontierAt applyR rules start d).1 = none := by
      rw [List.find?_eq_none]
      intro x hx
      exact List.any_eq_false.mp hf x hx
    simp only [bfsLoop, hfind, hne, Bool.false_eq_true, if_false]
  | succ fuel ih =>
    intro d h
    obtain ⟨hf, hne⟩ := h d le_rfl (by omega)
    unfold foundInFrontier at hf
    have hfind : List.find? (fun s => is_isomorphic s.net target)
        (frontierAt applyR rules start d).1 = none := by
      rw [List.find?_eq_none]
      intro x hx
      exact List.any_eq_false.mp hf x hx
    have hstep : dedupNew (frontierAt applyR rules start d).2
        (expandFrontier applyR rules (frontierAt applyR rules start d).1) =
        frontierAt applyR rules start (d + 1) := rfl
    simp only [bfsLoop, hfind, hne, Bool.false_eq_true, if_false, hstep]
    exact ih (d + 1) (fun k hk1 hk2 => h k (by omega) (by omega))

/-- C1: whenever the search reaches its depth budget before finding a
state isomorphic to the target and before exhausting the frontier — no
level within the budget contains an isomorphic state and none is empty —
it reports the distinct undecided outcome SearchBudgetExceededError,
never RefinementNotFoundError. -/
theorem is_refinement_budget_exceeded {R : Type} (applyR : R → String → Net → Option Net)
    (start target : Net) (rules : List R) (budget : Nat)
    (hnof : ∀ d, d ≤ budget →
      foundInFrontier target (frontierAt applyR rules start d).1 = false)
    (hnex : ∀ d, d ≤ budget → (frontierAt applyR rules start d).1.isEmpty = false) :
    is_refinement applyR start target rules budget = .searchBudgetExceededError ∧
    is_refinement applyR start target rules budget ≠ .refinementNotFoundError := by
  have h := bfsLoop_budget_aux applyR rules start target budget 0
    (fun k h0 hk => ⟨hnof k (by omega), hnex k (by omega)⟩)
  have h' : is_refinement applyR start target rules budget = .searchBudgetExceededError := by
    unfold is_refinement
    simpa [frontierAt] using h
  refine ⟨h', ?_⟩
  rw [h']
  exact fun hc => RefinementOutcome.noConfusion hc

/-- Witness for C1: with the single-place start net, the four-place chain
target (shortest refinement path of length 3, as the budget-3 run
confirms) and depth budget 2, the hypotheses hold concretely and the
search reports SearchBudgetExceededError. -/
theorem is_refinement_budget_exceeded_witness :
    (∀ d, d ≤ 2 → foundInFrontier targetNetC1
      (frontierAt applyTRule [TRule.placeExpand] startNetC1 d).1 = false) ∧
    (∀ d, d ≤ 2 →
      (frontierAt applyTRule [TRule.placeExpand] startNetC1 d).1.isEmpty = false) ∧
    outcomePathLength (is_refinement applyTRule startNetC1 targetNetC1
      [TRule.placeExpand] 3) = some 3 ∧
    is_refinement applyTRule startNetC1 targetNetC1 [TRule.placeExpand] 2 =
      .searchBudgetExceededError := by
  refine ⟨by decide, by decide, by decide, ?_⟩
  exact (is_refinement_budget_exceeded applyTRule startNetC1 targetNetC1
    [TRule.placeExpand] 2 (by decide) (by decide)).1

/-! ### Merging a single net -/

/-- Left-cancellation of string append. -/
theorem stringAppendCancel (p x y : String) (h : p ++ x = p ++ y) : x = y := by
  cases p with
  | mk pd =>
    cases x with
    | mk xd =>
      cases y with
      | mk yd =>
        have hd : pd ++ xd = pd ++ yd := congrArg String.data h
        exact congrArg String.mk (List.append_cancel_left hd)

/-- A list of equal naturals deduplicates to at most one element. -/
theorem dedup_len_le_one (l : List Nat) (h : ∀ x ∈ l, x = 0) : l.dedup.length ≤ 1 := by
  induction l with
  | nil => simp
  | cons a as ih =>
    by_cases hm : a ∈ as
    · rw [List.dedup_cons_of_mem hm]
      exact ih (fun x hx => h x (by simp [hx]))
    · rw [List.dedup_cons_of_not_mem hm]
      cases as with
      | nil => simp
      | cons b bs =>
        exact absurd (show a ∈ b :: bs by
          simp [h a (by simp), h b (by simp)]) hm

/-- Tagged places all from source net zero declare no shared label. -/
theorem sharedLabels_zero (tagged : List (Nat × Node)) (h : ∀ tp ∈ tagged, tp.1 = 0) :
    sharedLabels tagged = [] := by
  unfold sharedLabels
  rw [List.filter_eq_nil_iff]
  intro lb _
  simp only [decide_eq_true_eq]
  have hle : ((tagged.filter fun tp => decide (tp.2.label = some lb)).map Prod.fst).dedup.length ≤ 1 := by
    apply dedup_len_le_one
    intro x hx
    obtain ⟨tp, htp, hxx⟩ := List.mem_map.mp hx
    rw [← hxx]
    exact h tp (List.mem_of_mem_filter htp)
  omega

/-- With no shared label, the identification renaming is the identity. -/
theorem renameShared_id (tagged : List (Nat × Node)) (hsh : sharedLabels tagged = [])
    (x : String) : renameShared tagged x = x := by
  unfold renameShared
  split
  · split
    · simp [hsh]
    · rfl
  · rfl

/-- With no shared label, no place is dropped by the identification. -/
theorem droppedByMerge_false (tagged : List (Nat × Node)) (hsh : sharedLabels tagged = [])
    (tp : Nat × Node) : droppedByMerge tagged tp = false := by
  unfold droppedByMerge
  split
  · simp [hsh]
  · rfl

/-- Merging the singleton sequence is exactly the namespaced copy of the
single net: no identification fires. -/
theorem merge_singleton (A : Net) : merge [A] = prefixNet 0 A := by
  have htag : taggedPlaces [A] = (prefixNet 0 A).places.map (fun p => ((0 : Nat), p)) := by
    unfold taggedPlaces
    rw [show [A].enum = [((0 : Nat), A)] from rfl]
    simp
  have h0 : ∀ tp ∈ taggedPlaces [A], tp.1 = 0 := by
    rw [htag]
    intro tp htp
    obtain ⟨p, _, hq⟩ := List.mem_map.mp htp
    rw [← hq]
  have hsh := sharedLabels_zero _ h0
  have hren : ∀ x, renameShared (taggedPlaces [A]) x = x := renameShared_id _ hsh
  have hdrop : ∀ tp ∈ taggedPlaces [A],
      (! droppedByMerge (taggedPlaces [A]) tp) = true := by
    intro tp _
    rw [droppedByMerge_false _ hsh]
    rfl
  have hplaces : ((taggedPlaces [A]).filter
      (fun tp => ! droppedByMerge (taggedPlaces [A]) tp)).map Prod.snd =
      (prefixNet 0 A).places := by
    rw [List.filter_eq_self.mpr hdrop, htag, List.map_map]
    simp
  have hmapid : ∀ (l : List (String × String)),
      l.map (fun e => (renameShared (taggedPlaces [A]) e.1,
        renameShared (taggedPlaces [A]) e.2)) = l := by
    intro l
    have hfun : (fun e : String × String => (renameShared (taggedPlaces [A]) e.1,
        renameShared (taggedPlaces [A]) e.2)) = fun e => e := by
      funext e
      rw [hren, hren]
    rw [hfun]
    exact List.map_id' l
  have hmapid2 : ∀ (l : List String),
      l.map (renameShared (taggedPlaces [A])) = l := by
    intro l
    have hfun : renameShared (taggedPlaces [A]) = fun e => e := by
      funext e
      rw [hren]
    rw [hfun]
    exact List.map_id' l
  have henum : [A].enum = [((0 : Nat), A)] := rfl
  have htr : [A].enum.flatMap (fun en => (prefixNet en.1 en.2).transitions) =
      (prefixNet 0 A).transitions := by
    rw [henum]
    simp
  have harc : [A].enum.flatMap (fun en => (prefixNet en.1 en.2).arcs) =
      (prefixNet 0 A).arcs := by
    rw [henum]
    simp
  have hinit : [A].enum.flatMap (fun en => (prefixNet en.1 en.2).initial) =
      (prefixNet 0 A).initial := by
    rw [henum]
    simp
  have hfin : [A].enum.flatMap (fun en => (prefixNet en.1 en.2).final) =
      (prefixNet 0 A).final := by
    rw [henum]
    simp
  simp only [merge]
  rw [hplaces, hmapid, hmapid2, hmapid2, htr, harc, hinit, hfin]

/-- Zipping a mapped list with its original pairs images with sources. -/
theorem zip_map_self {α β : Type} (f : α → β) (l : List α) :
    (l.map f).zip l = l.map (fun x => (f x, x)) := by
  induction l with
  | nil => rfl
  | cons a as ih => simp [ih]

/-- The prefix pairing renames a declared prefixed id back to the
original id. -/
theorem renFun_pref (pre : String) (L : List Node) (x : String) (hx : x ∈ L.map Node.id) :
    renFun (L.map (fun nd => ((⟨pre ++ nd.id, nd.label⟩ : Node), nd))) (pre ++ x) = x := by
  induction L with
  | nil => cases hx
  | cons nd L ih =>
    simp only [List.map_cons, renFun]
    by_cases h : nd.id = x
    · rw [if_pos (by rw [h] : pre ++ nd.id = pre ++ x)]
      exact h
    · rw [if_neg (fun hc => h (stringAppendCancel pre _ _ hc))]
      have hx' : x = nd.id ∨ x ∈ L.map Node.id := by simpa using hx
      rcases hx' with h1 | h1
      · exact absurd h1.symm h
      · exact ih h1

/-- The swapped prefix pairing renames a declared original id to its
prefixed id. -/
theorem renFun_unpref (pre : String) (L : List Node) (x : String) (hx : x ∈ L.map Node.id) :
    renFun (L.map (fun nd => (nd, (⟨pre ++ nd.id, nd.label⟩ : Node)))) x = pre ++ x := by
  induction L with
  | nil => cases hx
  | cons nd L ih =>
    simp only [List.map_cons, renFun]
    by_cases h : nd.id = x
    · rw [if_pos h]
      rw [h]
    · rw [if_neg h]
      have hx' : x = nd.id ∨ x ∈ L.map Node.id := by simpa using hx
      rcases hx' with h1 | h1
      · exact absurd h1.symm h
      · exact ih h1

/-- Namespacing the ids of a net whose arcs reference declared nodes
yields an isomorphic net: the prefix pairing is a witness bijection. -/
theorem prefixNet_isomorphic (i : Nat) (A : Net)
    (hwf : ∀ e ∈ A.arcs, e.1 ∈ A.ids ∧ e.2 ∈ A.ids) :
    is_isomorphic (prefixNet i A) A = true := by
  have key : ∀ pre : String,
      is_isomorphic
        ⟨A.places.map (fun p => ⟨pre ++ p.id, p.label⟩),
         A.transitions.map (fun t => ⟨pre ++ t.id, t.label⟩),
         A.arcs.map (fun e => (pre ++ e.1, pre ++ e.2)),
         A.initial.map (fun x => pre ++ x),
         A.final.map (fun x => pre ++ x)⟩ A = true := by
    intro pre
    unfold is_isomorphic
    simp only [Bool.and_eq_true, decide_eq_true_eq]
    refine ⟨⟨by simp, by simp⟩, ?_⟩
    rw [List.any_eq_true]
    refine ⟨A.places.map (fun p => ⟨pre ++ p.id, p.label⟩), self_mem_perms _, ?_⟩
    rw [List.any_eq_true]
    refine ⟨A.places, self_mem_perms _, ?_⟩
    rw [List.any_eq_true]
    refine ⟨A.transitions.map (fun t => ⟨pre ++ t.id, t.label⟩), self_mem_perms _, ?_⟩
    rw [List.any_eq_true]
    refine ⟨A.transitions, self_mem_perms _, ?_⟩
    unfold isoPairsCheck
    have hpairs : (A.places.map (fun p : Node => ((⟨pre ++ p.id, p.label⟩ : Node), p))) ++
        (A.transitions.map (fun t : Node => ((⟨pre ++ t.id, t.label⟩ : Node), t))) =
        (A.places ++ A.transitions).map
          (fun nd : Node => ((⟨pre ++ nd.id, nd.label⟩ : Node), nd)) := by
      rw [List.map_append]
    simp only [Bool.and_eq_true, List.all_eq_true, decide_eq_true_eq, zip_map_self]
    refine ⟨⟨⟨?_, ?_⟩, ?_⟩, ?_⟩
    · intro q hq
      obtain ⟨nd, _, hqq⟩ := List.mem_map.mp hq
      rw [← hqq]
    · intro q hq
      obtain ⟨nd, _, hqq⟩ := List.mem_map.mp hq
      rw [← hqq]
    · intro e he
      obtain ⟨e0, he0, heq⟩ := List.mem_map.mp he
      rw [← heq, hpairs]
      have h1 := (hwf e0 he0).1
      have h2 := (hwf e0 he0).2
      unfold Net.ids at h1 h2
      rw [← List.map_append] at h1 h2
      rw [renFun_pref pre _ _ h1, renFun_pref pre _ _ h2]
      exact he0
    · intro e he
      rw [hpairs, List.map_map]
      have hswapfun : (Prod.swap ∘ fun nd : Node => ((⟨pre ++ nd.id, nd.label⟩ : Node), nd)) =
          fun nd : Node => (nd, (⟨pre ++ nd.id, nd.label⟩ : Node)) := rfl
      rw [hswapfun]
      have h1 := (hwf e he).1
      have h2 := (hwf e he).2
      unfold Net.ids at h1 h2
      rw [← List.map_append] at h1 h2
      rw [renFun_unpref pre _ _ h1, renFun_unpref pre _ _ h2]
      exact List.mem_map.mpr ⟨e, he, rfl⟩
  exact key (toString i ++ "_")

/-- C3: merging a single-element sequence produces a net isomorphic to
that element, for every net accepted by the construct validator. -/
theorem merge_singleton_isomorphic (A : Net) (h : A.validB = true) :
    is_isomorphic (merge [A]) A = true := by
  rw [merge_singleton]
  apply prefixNet_isomorphic
  intro e he
  unfold Net.validB at h
  rw [List.all_eq_true] at h
  have := h e he
  simp only [Bool.or_eq_true, Bool.and_eq_true, decide_eq_true_eq] at this
  unfold Net.ids
  rcases this with ⟨h1, h2⟩ | ⟨h1, h2⟩
  · exact ⟨List.mem_append.mpr (Or.inl h1), List.mem_append.mpr (Or.inr h2)⟩
  · exact ⟨List.mem_append.mpr (Or.inr h1), List.mem_append.mpr (Or.inl h2)⟩

/-- Witness for C3: the sample net passes validation and merging its
singleton sequence is isomorphic to it. -/
theorem merge_singleton_isomorphic_witness :
    sampleNetA.validB = true ∧ is_isomorphic (merge [sampleNetA]) sampleNetA = true :=
  ⟨by decide, merge_singleton_isomorphic sampleNetA (by decide)⟩

/-- C5: if any record of the log lacks the participant attribute, the
orchestrator fails with MissingParticipantAttributeError and the trace of
miner invocations is empty — the external miner is never called. -/
theorem compositional_discovery_missing_attribute {R : Type}
    (applyR : R → String → Net → Option Net) (log : List Record)
    (miner : List Record → Net) (tmplGet : String → Net) (rules : List R)
    (attr : String) (budget : Nat)
    (h : ∃ r ∈ log, getAttr r attr = none) :
    compositional_discovery applyR log miner tmplGet rules attr budget =
      (.error .missingParticipantAttributeError, []) := by
  obtain ⟨r, hr, hnone⟩ := h
  have hall : (log.all (fun rec => (getAttr rec attr).isSome)) = false := by
    cases hc : log.all (fun rec => (getAttr rec attr).isSome) with
    | false => rfl
    | true =>
      have := List.all_eq_true.mp hc r hr
      rw [hnone] at this
      exact absurd this (by simp)
  unfold compositional_discovery partitionLog
  rw [hall]
  rfl

/-- Witness for C5: a one-record log without the org attribute makes the
pipeline fail before issuing any miner call. -/
theorem compositional_discovery_missing_attribute_witness :
    (∃ r ∈ [[("activity", "a")]], getAttr r "org" = none) ∧
    compositional_discovery applyTRule [[("activity", "a")]]
      (fun _ => startNetC1) (fun _ => startNetC1) [TRule.placeExpand] "org" 2 =
      (.error .missingParticipantAttributeError, []) :=
  ⟨by decide, compositional_discovery_missing_attribute applyTRule
    [[("activity", "a")]] (fun _ => startNetC1) (fun _ => startNetC1)
    [TRule.placeExpand] "org" 2 (by decide)⟩

/-! ### The converter on well-formed documents -/

/-- A pointwise successful fallible map succeeds with the mapped list. -/
theorem mapExcept_ok {α β ε : Type} (f : α → Except ε β) (g : α → β) (l : List α)
    (h : ∀ a ∈ l, f a = .ok (g a)) : mapExcept f l = .ok (l.map g) := by
  induction l with
  | nil => rfl
  | cons a as ih =>
    simp only [mapExcept, h a (by simp), ih (fun a ha => h a (by simp [ha])),
      List.map_cons]

/-- Filtering the somes of a guarded map keeps exactly the entries whose
guard holds. -/
theorem filterMap_ite {α β : Type} (c : α → Bool) (h : α → β) (l : List α) :
    l.filterMap (fun a => if c a then some (h a) else none) = (l.filter c).map h := by
  induction l with
  | nil => rfl
  | cons a as ih =>
    cases hc : c a with
    | true => simp [List.filterMap_cons, List.filter_cons, hc, ih]
    | false => simp [List.filterMap_cons, List.filter_cons, hc, ih]

/-- C8 (amended): for every parsed document containing a net element,
provided the net either has no place element or carries a finalmarkings
section readable without error, the converter returns the DOT text built
from the header, one circle-shaped node line per place with a truthy id,
one box-shaped node line per transition with a truthy id, and one
directed edge line per arc from its source attribute to its target
attribute, with every colon replaced. -/
theorem convertPnmlToDot_structure (doc netEl : Xml) (fms : List (Option String))
    (hnet : (doc.byTag "net").head? = some netEl)
    (hfm : (netEl.byTag "place") = [] ∨ finalMarkingIdrefs netEl = .ok fms) :
    convertPnmlToDot (.ok doc) =
      replaceColons (headerDot ++
        String.join (((netEl.byTag "place").filter
          (fun pl => jsTruthy (getAttribute pl "id"))).map (placeLineCore fms)) ++
        String.join (((netEl.byTag "transition").filter
          (fun tr => jsTruthy (getAttribute tr "id"))).map transitionLineCore) ++
        String.join ((netEl.byTag "arc").map arcLineStr) ++ footerDot) ∧
    (∀ pl : Xml, ∃ x y : String, placeLineCore fms pl = x ++ "shape=circle" ++ y) ∧
    (∀ tr : Xml, ∃ x y : String, transitionLineCore tr = x ++ "shape=box" ++ y) ∧
    (∀ arc : Xml, arcLineStr arc =
      "  " ++ quoteS (jsShow (getAttribute arc "source")) ++ " -> " ++
        quoteS (jsShow (getAttribute arc "target")) ++ ";\n") := by
  have hentries : mapExcept (placeEntry netEl) (netEl.byTag "place") =
      .ok ((netEl.byTag "place").map (placeLineStr fms)) := by
    rcases hfm with hfm | hfm
    · rw [hfm]
      rfl
    · exact mapExcept_ok _ _ _ (fun pl _ => by simp [placeEntry, hfm])
  have hlines : ((netEl.byTag "place").map (placeLineStr fms)).filterMap id =
      ((netEl.byTag "place").filter
        (fun pl => jsTruthy (getAttribute pl "id"))).map (placeLineCore fms) := by
    rw [List.filterMap_map]
    exact filterMap_ite (fun pl => jsTruthy (getAttribute pl "id"))
      (placeLineCore fms) (netEl.byTag "place")
  have htrans : (netEl.byTag "transition").filterMap transitionLineStr =
      ((netEl.byTag "transition").filter
        (fun tr => jsTruthy (getAttribute tr "id"))).map transitionLineCore :=
    filterMap_ite (fun tr => jsTruthy (getAttribute tr "id"))
      transitionLineCore (netEl.byTag "transition")
  refine ⟨?_, ?_, ?_, fun arc => rfl⟩
  · simp only [convertPnmlToDot, convertPnmlToDotBody, hnet, hentries, hlines, htrans]
  · intro pl
    refine ⟨"  " ++ quoteS (jsShow (getAttribute pl "id")) ++ " [label=" ++
      quoteS (jsShow (jsOr (firstTagText pl "name") (getAttribute pl "id"))) ++ ", ",
      ", style=" ++ quoteS "filled" ++ ", fillcolor=" ++
      quoteS (placeColorPen fms pl).1 ++ ", penwidth=" ++
      quoteS (toString (placeColorPen fms pl).2) ++ "];\n", ?_⟩
    unfold placeLineCore
    simp only [String.append_assoc]
  · intro tr
    refine ⟨"  " ++ quoteS (jsShow (getAttribute tr "id")) ++ " [label=" ++
      quoteS (jsShow (jsOr (jsOr (firstTagText tr "name") (getAttribute tr "id"))
        (getAttribute tr "id"))) ++ ", ",
      ", style=" ++ quoteS "filled" ++ ", fillcolor=" ++
      quoteS (transitionFill tr) ++ "];\n", ?_⟩
    unfold transitionLineCore
    simp only [String.append_assoc]

/-- C8 counterexample: this document parses, contains a net element and a
place with an id, yet the converter returns the empty string — the place
loop dereferences the missing finalmarkings section, the raised error is
caught, and no node is declared — refuting the claim as universally
stated. -/
theorem convertPnmlToDot_claim_counterexample :
    (badPnmlDoc.byTag "net").head? = some badNetEl ∧
    (badNetEl.byTag "place").length = 1 ∧
    jsTruthy (getAttribute ((badNetEl.byTag "place").headD (Xml.text "")) "id") = true ∧
    convertPnmlToDot (.ok badPnmlDoc) = "" :=
  ⟨rfl, rfl, rfl, rfl⟩

/-- Witness for C8 (amended): the well-formed document satisfies both
hypotheses and the converter output is the structured DOT text. -/
theorem convertPnmlToDot_structure_witness :
    (goodPnmlDoc.byTag "net").head? = some goodNetEl ∧
    finalMarkingIdrefs goodNetEl = .ok [some "p1"] ∧
    (convertPnmlToDot (.ok goodPnmlDoc) =
      replaceColons (headerDot ++
        String.join (((goodNetEl.byTag "place").filter
          (fun pl => jsTruthy (getAttribute pl "id"))).map
            (placeLineCore [some "p1"])) ++
        String.join (((goodNetEl.byTag "transition").filter
          (fun tr => jsTruthy (getAttribute tr "id"))).map transitionLineCore) ++
        String.join ((goodNetEl.byTag "arc").map arcLineStr) ++ footerDot) ∧
      (∀ pl : Xml, ∃ x y : String,
        placeLineCore [some "p1"] pl = x ++ "shape=circle" ++ y) ∧
      (∀ tr : Xml, ∃ x y : String, transitionLineCore tr = x ++ "shape=box" ++ y) ∧
      (∀ arc : Xml, arcLineStr arc =
        "  " ++ quoteS (jsShow (getAttribute arc "source")) ++ " -> " ++
          quoteS (jsShow (getAttribute arc "target")) ++ ";\n")) :=
  ⟨rfl, rfl, convertPnmlToDot_structure goodPnmlDoc goodNetEl [some "p1"] rfl (Or.inr rfl)⟩
